import Mathlib

/-!
Verification of the attendance accounting engine of attendbot2.0.

Times are modelled as rational numbers of hours since an arbitrary epoch;
a Python `datetime` maps to such a rational and
`(b - a).total_seconds() / 3600` maps to the difference `b - a`.
Database tables become Lean lists, SQL filters become list filters, and
each handler becomes a function from the relevant state to a result
together with the updated state.
-/

namespace Attendbot

/-- `meeting_type` column of `MeetingHour` (app.py line 53): 'regular' or 'outreach'. -/
inductive MeetingType where
  | regular
  | outreach
deriving DecidableEq, Repr

/-- `MeetingHour` model (app.py lines 48-59).  `startTime`/`endTime` are the
`start_time`/`end_time` DateTime columns, in hours since the epoch.  The model
declares no `reporting_period_id` column. -/
structure Meeting where
  id : Nat
  startTime : ℚ
  endTime : ℚ
  meetingType : MeetingType
deriving DecidableEq, Repr

/-- `(m.end_time - m.start_time).total_seconds() / 3600`, the meeting duration
in hours, as computed throughout app.py and slack_bot.py. -/
def duration (m : Meeting) : ℚ := m.endTime - m.startTime

/-- `AttendanceLog` model (app.py lines 61-69), together with the
`attendance_start_time` / `attendance_end_time` columns that slack_bot.py
(lines 238-239, 342-343), fix_equal_time_entries.py and test_app.py read and
write on this model.  `partHours` is the nullable `partial_hours` Float column
(app.py line 68) and `partFlag` the `is_partial` Boolean column (line 69). -/
structure AttendanceLog where
  userId : Nat
  meetingHourId : Nat
  partHours : Option ℚ
  partFlag : Bool
  attendanceStart : Option ℚ
  attendanceEnd : Option ℚ
deriving DecidableEq, Repr

/-- `Excuse` model (app.py lines 98-111). -/
structure Excuse where
  userId : Nat
  meetingHourId : Nat
  reportingPeriodId : Nat
  reason : String
  createdBy : Nat
  excuseRequestId : Option Nat
deriving DecidableEq, Repr

/-- Calendar day of an instant: `db.func.date(MeetingHour.start_time)`
(slack_bot.py line 275), with days numbered from the epoch. -/
def dayOf (t : ℚ) : ℤ := Int.floor (t / 24)

/-- The meeting query of `_handle_time_based_logging` (slack_bot.py lines
274-279): same calendar date, regular type, `start_time <= end_time(range)`
and `end_time >= start_time(range)`. -/
def findOverlapping (catalog : List Meeting) (day : ℤ) (startT endT : ℚ) :
    List Meeting :=
  match catalog with
  | [] => []
  | m :: ms =>
    if dayOf m.startTime = day ∧ m.meetingType = MeetingType.regular ∧
        m.startTime ≤ endT ∧ startT ≤ m.endTime then
      m :: findOverlapping ms day startT endT
    else
      findOverlapping ms day startT endT

/-- Overlap score of one candidate meeting (slack_bot.py lines 288-298):
`min(meeting.end_time, end_time) - max(meeting.start_time, start_time)`,
overridden to the full logged duration for a zero-length meeting whose
instant lies inside the logged range. -/
def overlapScore (startT endT : ℚ) (m : Meeting) : ℚ :=
  if m.startTime = m.endTime ∧ startT ≤ m.startTime ∧ m.startTime ≤ endT then
    endT - startT
  else
    min m.endTime endT - max m.startTime startT

/-- The best-match loop of slack_bot.py lines 284-302: running
`best_meeting`/`max_overlap` state, updated when a candidate's overlap is
strictly greater than the running maximum (initially 0). -/
def selectAux (startT endT : ℚ) :
    List Meeting → Option Meeting → ℚ → Option Meeting × ℚ
  | [], best, maxOv => (best, maxOv)
  | m :: ms, best, maxOv =>
    if maxOv < overlapScore startT endT m then
      selectAux startT endT ms (some m) (overlapScore startT endT m)
    else
      selectAux startT endT ms best maxOv

/-- `best_meeting` after the loop (slack_bot.py lines 284-302). -/
def selectBestMeeting (startT endT : ℚ) (ms : List Meeting) : Option Meeting :=
  (selectAux startT endT ms none 0).1

/-- Whether the ledger already holds a record for the (user, meeting) pair:
`AttendanceLog.query.filter_by(user_id=..., meeting_hour_id=...).first()`
(slack_bot.py lines 220-223 and 308-311). -/
def hasRecordFor (ledger : List AttendanceLog) (userId meetingId : Nat) : Prop :=
  ∃ l ∈ ledger, l.userId = userId ∧ l.meetingHourId = meetingId

instance (ledger : List AttendanceLog) (userId meetingId : Nat) :
    Decidable (hasRecordFor ledger userId meetingId) := by
  unfold hasRecordFor; infer_instance

/-- The record built by `_handle_time_based_logging` (slack_bot.py lines
316-344): for a zero-length meeting the attended interval is the full logged
range and the record is never marked as incomplete; otherwise the interval is
clamped to the meeting (`actual_start = max`, `actual_end = min`), the record
is marked whenever the attended hours fall short of the meeting duration,
and `partial_hours` is stored exactly when the record is so marked. -/
def mkTimeRangeRecord (userId : Nat) (m : Meeting) (startT endT : ℚ) :
    AttendanceLog :=
  let actualStart := if m.startTime = m.endTime then startT else max m.startTime startT
  let actualEnd := if m.startTime = m.endTime then endT else min m.endTime endT
  let hoursAttended := actualEnd - actualStart
  let meetingDuration := m.endTime - m.startTime
  let flagged : Bool :=
    if m.startTime = m.endTime then false else decide (hoursAttended < meetingDuration)
  { userId := userId
    meetingHourId := m.id
    partHours := if flagged then some hoursAttended else none
    partFlag := flagged
    attendanceStart := some actualStart
    attendanceEnd := some actualEnd }

/-- Outcome of `_handle_time_based_logging`. -/
inductive TimeLogResult where
  | invalidRange
  | noMatchingMeeting
  | noSuitableMeeting
  | alreadyLogged (m : Meeting)
  | logged (m : Meeting) (r : AttendanceLog)
deriving DecidableEq, Repr

/-- `_handle_time_based_logging` (slack_bot.py lines 250-359), stripped of
message formatting: validate the range (line 266), search for overlapping
regular meetings on the day (lines 274-282), pick the best match (lines
284-305), refuse a duplicate (lines 307-314), and otherwise insert the new
record (lines 316-347). -/
def handleTimeBasedLogging (catalog : List Meeting) (ledger : List AttendanceLog)
    (userId : Nat) (day : ℤ) (startT endT : ℚ) :
    TimeLogResult × List AttendanceLog :=
  if endT ≤ startT then
    (.invalidRange, ledger)
  else if findOverlapping catalog day startT endT = [] then
    (.noMatchingMeeting, ledger)
  else
    match selectBestMeeting startT endT (findOverlapping catalog day startT endT) with
    | none => (.noSuitableMeeting, ledger)
    | some best =>
      if hasRecordFor ledger userId best.id then
        (.alreadyLogged best, ledger)
      else
        (.logged best (mkTimeRangeRecord userId best startT endT),
          ledger ++ [mkTimeRangeRecord userId best startT endT])

/-- Outcome of `_handle_meeting_id_logging`. -/
inductive IdLogResult where
  | meetingNotFound
  | alreadyLogged
  | logged (r : AttendanceLog)
deriving DecidableEq, Repr

/-- `MeetingHour.query.get(meeting_id)` over the catalog list. -/
def lookupMeeting : List Meeting → Nat → Option Meeting
  | [], _ => none
  | m :: ms, i => if m.id = i then some m else lookupMeeting ms i

/-- `_handle_meeting_id_logging` (slack_bot.py lines 205-248): look the
meeting up by id, refuse a duplicate for the (user, meeting) pair, and
otherwise insert a full-attendance record over the meeting's own interval
(lines 231-240: `is_partial=False`, `partial_hours=None`). -/
def logByIdentifier (catalog : List Meeting) (ledger : List AttendanceLog)
    (userId meetingId : Nat) : IdLogResult × List AttendanceLog :=
  match lookupMeeting catalog meetingId with
  | none => (.meetingNotFound, ledger)
  | some m =>
    if hasRecordFor ledger userId meetingId then
      (.alreadyLogged, ledger)
    else
      let r : AttendanceLog :=
        { userId := userId
          meetingHourId := meetingId
          partHours := none
          partFlag := false
          attendanceStart := some m.startTime
          attendanceEnd := some m.endTime }
      (.logged r, ledger ++ [r])

/-- Filter of a list by a decidable predicate, modelling the SQLAlchemy
query filters and the Python list comprehensions of app.py. -/
def filterP (p : α → Prop) [DecidablePred p] : List α → List α
  | [] => []
  | a :: as => if p a then a :: filterP p as else filterP p as

/-- Derived attended hours for one record, exactly the inline expression of
app.py line 890 (and again line 907): `log.partial_hours` when it is not
`None`, otherwise the full duration of the record's meeting. -/
def attendedHoursOf (l : AttendanceLog) (m : Meeting) : ℚ :=
  match l.partHours with
  | some h => h
  | none => m.endTime - m.startTime

/-- The same derivation as it appears a second time in
`get_meeting_attendance_detail`, app.py line 1039. -/
def detailHoursAttended (l : AttendanceLog) (m : Meeting) : ℚ :=
  match l.partHours with
  | some h => h
  | none => m.endTime - m.startTime

/-- Modelled from the spec's words (§3): derived attended-hours are the
explicit attended-interval duration when such an interval is present,
otherwise the stored fractional `attendedHours` when present, otherwise the
full meeting duration.  Stated only to be compared with the derivation the
code actually uses. -/
def specDerivedHours (l : AttendanceLog) (m : Meeting) : ℚ :=
  match l.attendanceStart, l.attendanceEnd with
  | some s, some e => e - s
  | _, _ =>
    match l.partHours with
    | some h => h
    | none => m.endTime - m.startTime

/-- Explicit attended-interval duration stored on a record, when present. -/
def intervalHours (r : AttendanceLog) : Option ℚ :=
  match r.attendanceStart, r.attendanceEnd with
  | some s, some e => some (e - s)
  | _, _ => none

/-- The join of `get_user_attendance_data` (app.py lines 870-873): the user's
attendance records whose meeting starts inside the period, paired with that
meeting. -/
def logsWithMeetings (catalog : List Meeting) (ledger : List AttendanceLog)
    (userId : Nat) (ps pe : ℚ) : List (AttendanceLog × Meeting) :=
  match ledger with
  | [] => []
  | l :: ls =>
    match lookupMeeting catalog l.meetingHourId with
    | none => logsWithMeetings catalog ls userId ps pe
    | some m =>
      if l.userId = userId ∧ ps ≤ m.startTime ∧ m.startTime ≤ pe then
        (l, m) :: logsWithMeetings catalog ls userId ps pe
      else
        logsWithMeetings catalog ls userId ps pe

/-- The excuse query of `get_user_attendance_data` (app.py lines 876-877):
the user's excuses for the period id, paired with their meeting. -/
def excusesWithMeetings (catalog : List Meeting) (excuses : List Excuse)
    (userId periodId : Nat) : List (Excuse × Meeting) :=
  match excuses with
  | [] => []
  | e :: es =>
    if e.userId = userId ∧ e.reportingPeriodId = periodId then
      match lookupMeeting catalog e.meetingHourId with
      | none => excusesWithMeetings catalog es userId periodId
      | some m => (e, m) :: excusesWithMeetings catalog es userId periodId
    else
      excusesWithMeetings catalog es userId periodId

/-- The numeric results of `get_user_attendance_data` (app.py lines 922-955),
before the presentational `round(..., 2)` calls. -/
structure Metrics where
  totalRegularHours : ℚ
  attendedRegularHours : ℚ
  excusedRegularHours : ℚ
  effectiveRegularTotalHours : ℚ
  regularAttendancePct : ℚ
  totalOutreachHours : ℚ
  attendedOutreachHours : ℚ
  totalHours : ℚ
  attendedHours : ℚ
  effectiveTotalHours : ℚ
  attendancePct : ℚ
deriving DecidableEq, Repr

/-- `get_user_attendance_data` (app.py lines 851-955): period meetings split
by type, attended hours summed with the `partial_hours`-else-duration rule
(line 890 and line 907), excused hours summed over the user's regular-meeting
excuses, effective totals, and division-guarded percentages (lines 897-900
and lines 914-920). -/
def getUserAttendanceData (catalog : List Meeting) (ledger : List AttendanceLog)
    (excuses : List Excuse) (userId periodId : Nat) (ps pe : ℚ) : Metrics :=
  let allMeetingHours := filterP (fun m : Meeting => ps ≤ m.startTime ∧ m.startTime ≤ pe) catalog
  let regularMeetings := filterP (fun m : Meeting => m.meetingType = .regular) allMeetingHours
  let outreachMeetings := filterP (fun m : Meeting => m.meetingType = .outreach) allMeetingHours
  let joined := logsWithMeetings catalog ledger userId ps pe
  let regularAttended := filterP (fun lm : AttendanceLog × Meeting => lm.2.meetingType = .regular) joined
  let outreachAttended := filterP (fun lm : AttendanceLog × Meeting => lm.2.meetingType = .outreach) joined
  let regularExcused := filterP (fun em : Excuse × Meeting => em.2.meetingType = .regular)
    (excusesWithMeetings catalog excuses userId periodId)
  let totalRegularHours := (regularMeetings.map duration).sum
  let attendedRegularHours := (regularAttended.map (fun lm => attendedHoursOf lm.1 lm.2)).sum
  let excusedRegularHours := (regularExcused.map (fun em => duration em.2)).sum
  let effectiveRegularTotalHours := totalRegularHours - excusedRegularHours
  let regularPct :=
    if 0 < effectiveRegularTotalHours then
      attendedRegularHours / effectiveRegularTotalHours * 100
    else 0
  let totalOutreachHours := (outreachMeetings.map duration).sum
  let attendedOutreachHours := (outreachAttended.map (fun lm => attendedHoursOf lm.1 lm.2)).sum
  let totalHours := totalRegularHours + totalOutreachHours
  let attendedHours := attendedRegularHours + attendedOutreachHours
  let effectiveTotalHours := totalHours - excusedRegularHours
  let overallPct :=
    if 0 < effectiveTotalHours then attendedHours / effectiveTotalHours * 100 else 0
  { totalRegularHours := totalRegularHours
    attendedRegularHours := attendedRegularHours
    excusedRegularHours := excusedRegularHours
    effectiveRegularTotalHours := effectiveRegularTotalHours
    regularAttendancePct := regularPct
    totalOutreachHours := totalOutreachHours
    attendedOutreachHours := attendedOutreachHours
    totalHours := totalHours
    attendedHours := attendedHours
    effectiveTotalHours := effectiveTotalHours
    attendancePct := overallPct }

/-- `status` column of `ExcuseRequest` (app.py line 87). -/
inductive RequestStatus where
  | pending
  | approved
  | denied
deriving DecidableEq, Repr

/-- `ExcuseRequest` model (app.py lines 82-96). -/
structure ExcuseRequest where
  id : Nat
  userId : Nat
  meetingHourId : Nat
  reason : String
  status : RequestStatus
  reviewedBy : Option Nat
  reviewedAt : Option ℚ
  adminNotes : Option String
deriving DecidableEq, Repr

/-- `MeetingHour` (app.py lines 48-59) declares no `reporting_period_id`
column, so the attribute read `excuse_request.meeting_hour.reporting_period_id`
at app.py line 1538 finds no value and raises `AttributeError`.  The access is
modelled as an option-valued field read that is always `none`. -/
def meetingReportingPeriodId (_ : Meeting) : Option Nat := none

/-- Outcome of `approve_excuse_request`. -/
inductive ApproveResult where
  | alreadyProcessed
  | outreachNotExcusable
  | attributeFailure
  | approvedOk (req : ExcuseRequest) (excuses : List Excuse)
deriving DecidableEq, Repr

/-- `approve_excuse_request` (app.py lines 1508-1548): refuse a request that
is no longer pending (lines 1516-1518) or whose meeting is outreach (lines
1520-1523); otherwise set the review fields (lines 1529-1532) and create the
linked Excuse (lines 1535-1544) — whose construction reads
`meeting_hour.reporting_period_id`, a column `MeetingHour` does not have. -/
def approveExcuseRequest (req : ExcuseRequest) (meeting : Meeting)
    (reviewerId : Nat) (now : ℚ) (notes : String) (excuses : List Excuse) :
    ApproveResult :=
  if req.status ≠ RequestStatus.pending then
    .alreadyProcessed
  else if meeting.meetingType = .outreach then
    .outreachNotExcusable
  else
    match meetingReportingPeriodId meeting with
    | none => .attributeFailure
    | some pid =>
      .approvedOk
        { req with
          status := .approved
          reviewedBy := some reviewerId
          reviewedAt := some now
          adminNotes := some notes }
        (excuses ++ [⟨req.userId, req.meetingHourId, pid, req.reason, reviewerId, some req.id⟩])

/-- Outcome of the admin `/excuse` command. -/
inductive DirectExcuseResult where
  | outreachNotExcusable
  | created (e : Excuse)
deriving DecidableEq, Repr

/-- The core of `_handle_excuse` (slack_bot.py lines 575-624), after the
admin/user/meeting/period lookups: refuse an outreach meeting (lines 599-601),
otherwise create the excuse (lines 612-622). -/
def handleExcuseDirect (targetUser : Nat) (m : Meeting) (periodId : Nat)
    (reason : String) (creatorId : Nat) (excuses : List Excuse) :
    DirectExcuseResult × List Excuse :=
  if m.meetingType = .outreach then
    (.outreachNotExcusable, excuses)
  else
    let e : Excuse := ⟨targetUser, m.id, periodId, reason, creatorId, none⟩
    (.created e, excuses ++ [e])

/-- One per-user cell of a CSV data row, already tokenized: empty/zero cells
(app.py line 1396), the `*` excused-absence sentinel (line 1400), a parsed
number (line 1426), or an unparseable token (line 1471). -/
inductive Cell where
  | blank
  | star
  | num (h : ℚ)
  | invalid
deriving DecidableEq, Repr

/-- Row diagnostics appended by the per-cell importer code
(`details.append`, app.py lines 1399-1473). -/
inductive Diag where
  | excuseCreated
  | excuseExists
  | hoursExceedLength
  | attendanceUpdated
  | attendanceCreated
  | invalidHours
deriving DecidableEq, Repr

/-- Importer state threaded through `parse_csv_attendance_data`: the two
tables it writes, the created counters and the diagnostics list. -/
structure ImportAcc where
  ledger : List AttendanceLog
  excuses : List Excuse
  logsCreated : Nat
  excusesCreated : Nat
  details : List Diag
deriving DecidableEq, Repr

/-- Whether an excuse already exists for the pair:
`Excuse.query.filter_by(user_id=..., meeting_hour_id=...).first()`
(app.py lines 1404-1407). -/
def hasExcuseFor (excuses : List Excuse) (userId meetingId : Nat) : Prop :=
  ∃ e ∈ excuses, e.userId = userId ∧ e.meetingHourId = meetingId

instance (excuses : List Excuse) (userId meetingId : Nat) :
    Decidable (hasExcuseFor excuses userId meetingId) := by
  unfold hasExcuseFor; infer_instance

/-- Update the first list element satisfying `p`, modelling a mutation of the
record returned by `.first()`. -/
def updateFirst (p : α → Prop) [DecidablePred p] (f : α → α) : List α → List α
  | [] => []
  | a :: as => if p a then f a :: as else a :: updateFirst p f as

/-- The per-user cell parsing of `parse_csv_attendance_data` (app.py lines
1395-1473) for one cell: blank/zero cells are skipped; `*` creates an excuse
unless one exists (lines 1399-1423, with no check of the meeting's type);
a number is skipped when non-positive (line 1427), rejected with a diagnostic
when it exceeds the meeting length of a non-bonus row (lines 1430-1434,
`is_bonus_meeting = (meeting_length == 0)`, line 1339), and otherwise stored
as `partial_hours` on an updated or newly created record with
`is_partial = False if is_bonus_meeting else hours < meeting_length`
(lines 1436-1469; the created record carries no attended interval). -/
def processUserCell (acc : ImportAcc) (userId : Nat) (m : Meeting)
    (meetingLength : ℚ) (periodId createdBy : Nat) (cell : Cell) : ImportAcc :=
  match cell with
  | .blank => acc
  | .star =>
    if hasExcuseFor acc.excuses userId m.id then
      { acc with details := acc.details ++ [.excuseExists] }
    else
      { acc with
        excuses := acc.excuses ++
          [⟨userId, m.id, periodId, "Imported from CSV - excused absence", createdBy, none⟩]
        excusesCreated := acc.excusesCreated + 1
        details := acc.details ++ [.excuseCreated] }
  | .num h =>
    if h ≤ 0 then acc
    else if ¬meetingLength = 0 ∧ meetingLength < h then
      { acc with details := acc.details ++ [.hoursExceedLength] }
    else
      let flagged : Bool := if meetingLength = 0 then false else decide (h < meetingLength)
      if hasRecordFor acc.ledger userId m.id then
        { acc with
          ledger := updateFirst (fun l => l.userId = userId ∧ l.meetingHourId = m.id)
            (fun l => { l with partHours := some h, partFlag := flagged }) acc.ledger
          details := acc.details ++ [.attendanceUpdated] }
      else
        { acc with
          ledger := acc.ledger ++ [⟨userId, m.id, some h, flagged, none, none⟩]
          logsCreated := acc.logsCreated + 1
          details := acc.details ++ [.attendanceCreated] }
  | .invalid => { acc with details := acc.details ++ [.invalidHours] }

/-- At most one attendance record per (user, meeting) pair: the ledger
invariant of spec §3. -/
def uniquePairs (ledger : List AttendanceLog) : Prop :=
  List.Pairwise
    (fun a b => ¬(a.userId = b.userId ∧ a.meetingHourId = b.meetingHourId)) ledger

/-! ### Helper lemmas -/

/-- Inverting a successful time-range log: the reported meeting is the best
match over the day's candidates, the pair was not yet in the ledger, the range
was valid, and the inserted record is exactly `mkTimeRangeRecord`. -/
theorem timeLog_logged_inv {catalog : List Meeting} {ledger : List AttendanceLog}
    {u : Nat} {day : ℤ} {s e : ℚ} {m : Meeting} {r : AttendanceLog}
    {L' : List AttendanceLog}
    (h : handleTimeBasedLogging catalog ledger u day s e = (.logged m r, L')) :
    r = mkTimeRangeRecord u m s e ∧ L' = ledger ++ [r] ∧
    selectBestMeeting s e (findOverlapping catalog day s e) = some m ∧
    ¬hasRecordFor ledger u m.id ∧ s < e := by
  unfold handleTimeBasedLogging at h
  split at h
  · simp at h
  next hse =>
    split at h
    · simp at h
    next hne =>
      split at h
      · simp at h
      next best hsel =>
        split at h
        · simp at h
        next hdup =>
          simp only [Prod.mk.injEq, TimeLogResult.logged.injEq] at h
          obtain ⟨⟨hbm, hrr⟩, hL⟩ := h
          subst hbm
          refine ⟨hrr.symm, ?_, hsel, hdup, lt_of_not_le hse⟩
          rw [← hL, hrr]

/-- `mkTimeRangeRecord` on a meeting of nonzero length: interval clamped to
the meeting, marked iff the clamped hours fall short of the duration. -/
theorem mkTimeRangeRecord_of_ne {u : Nat} {m : Meeting} {s e : ℚ}
    (hm : m.startTime ≠ m.endTime) :
    mkTimeRangeRecord u m s e =
      { userId := u
        meetingHourId := m.id
        partHours :=
          if min m.endTime e - max m.startTime s < m.endTime - m.startTime then
            some (min m.endTime e - max m.startTime s)
          else none
        partFlag := decide (min m.endTime e - max m.startTime s < m.endTime - m.startTime)
        attendanceStart := some (max m.startTime s)
        attendanceEnd := some (min m.endTime e) } := by
  simp only [mkTimeRangeRecord, if_neg hm, decide_eq_true_eq]

/-- `mkTimeRangeRecord` on a zero-length meeting: the logged range is stored
verbatim, the record is not marked and no fractional hours are stored. -/
theorem mkTimeRangeRecord_of_eq {u : Nat} {m : Meeting} {s e : ℚ}
    (hm : m.startTime = m.endTime) :
    mkTimeRangeRecord u m s e =
      { userId := u
        meetingHourId := m.id
        partHours := none
        partFlag := false
        attendanceStart := some s
        attendanceEnd := some e } := by
  simp [mkTimeRangeRecord, if_pos hm]

/-! ### C1 -/

/-- C1: every time-range log that resolves to a meeting of strictly positive
duration records the interval `actualStart = max(meeting.start, range.start)`,
`actualEnd = min(meeting.end, range.end)`, its recorded hours are the duration
of that interval, and it is classified as incomplete attendance exactly when
those hours fall short of the meeting duration (in which case they are stored
in `partial_hours`); a record on a zero-length meeting is never classified so. -/
theorem c1_time_range_clamp_and_classification
    (catalog : List Meeting) (ledger : List AttendanceLog) (u : Nat) (day : ℤ)
    (s e : ℚ) (m : Meeting) (r : AttendanceLog) (L' : List AttendanceLog)
    (h : handleTimeBasedLogging catalog ledger u day s e = (.logged m r, L')) :
    (m.startTime < m.endTime →
      r.attendanceStart = some (max m.startTime s) ∧
      r.attendanceEnd = some (min m.endTime e) ∧
      intervalHours r = some (min m.endTime e - max m.startTime s) ∧
      (r.partFlag = true ↔ min m.endTime e - max m.startTime s < duration m) ∧
      (r.partFlag = true → r.partHours = some (min m.endTime e - max m.startTime s))) ∧
    (m.startTime = m.endTime → r.partFlag = false) := by
  obtain ⟨hr, -, -, -, -⟩ := timeLog_logged_inv h
  subst hr
  constructor
  · intro hpos
    rw [mkTimeRangeRecord_of_ne (ne_of_lt hpos)]
    refine ⟨rfl, rfl, by simp [intervalHours], by simp [duration], ?_⟩
    intro hf
    have hc := of_decide_eq_true hf
    simp [hc]
  · intro hzero
    rw [mkTimeRangeRecord_of_eq hzero]

/-- C1 witness: logging 14:30-15:30 (hours 29/2 to 31/2) against a regular
meeting 14:00-16:00 creates a record with one attended hour stored in
`partial_hours` and classified as incomplete attendance. -/
theorem c1_witness :
    handleTimeBasedLogging [⟨3, 14, 16, .regular⟩] [] 7 0 (29/2) (31/2) =
      (.logged ⟨3, 14, 16, .regular⟩
        ⟨7, 3, some 1, true, some (29/2), some (31/2)⟩,
       [⟨7, 3, some 1, true, some (29/2), some (31/2)⟩]) ∧
    (⟨7, 3, some 1, true, some (29/2), some (31/2)⟩ : AttendanceLog).partFlag = true ∧
    (⟨7, 3, some 1, true, some (29/2), some (31/2)⟩ : AttendanceLog).partHours =
      some (min (16 : ℚ) (31/2) - max 14 (29/2)) ∧
    min (16 : ℚ) (31/2) - max (14 : ℚ) (29/2) = 1 := by
  have heq :
      handleTimeBasedLogging [⟨3, 14, 16, .regular⟩] [] 7 0 (29/2) (31/2) =
        (.logged ⟨3, 14, 16, .regular⟩
          ⟨7, 3, some 1, true, some (29/2), some (31/2)⟩,
         [⟨7, 3, some 1, true, some (29/2), some (31/2)⟩]) := by
    norm_num [handleTimeBasedLogging, findOverlapping, dayOf, selectBestMeeting,
      selectAux, overlapScore, mkTimeRangeRecord, hasRecordFor, max_def, min_def]
  have hc := (c1_time_range_clamp_and_classification _ _ _ _ _ _ _ _ _ heq).1
    (by norm_num)
  have hflag : (⟨7, 3, some 1, true, some (29/2), some (31/2)⟩ : AttendanceLog).partFlag
      = true := rfl
  exact ⟨heq, hflag, hc.2.2.2.2 hflag, by norm_num [min_def, max_def]⟩

/-! ### C2 -/

/-- C2: contrary to the claim, the clamp `actual_start = max(meeting.start,
range.start)`, `actual_end = min(meeting.end, range.end)` (slack_bot.py lines
326-327) bounds the attended hours by the meeting duration for every meeting
of strictly positive duration, so a record with hours strictly greater than
the matched meeting's duration is impossible on this path and the `Extended
attendance` reply at slack_bot.py line 353 is unreachable. -/
theorem c2_time_range_hours_never_exceed_duration
    (catalog : List Meeting) (ledger : List AttendanceLog) (u : Nat) (day : ℤ)
    (s e : ℚ) (m : Meeting) (r : AttendanceLog) (L' : List AttendanceLog)
    (h : handleTimeBasedLogging catalog ledger u day s e = (.logged m r, L'))
    (hpos : m.startTime < m.endTime) :
    ∀ q, intervalHours r = some q → q ≤ duration m := by
  obtain ⟨hr, -, -, -, -⟩ := timeLog_logged_inv h
  subst hr
  rw [mkTimeRangeRecord_of_ne (ne_of_lt hpos)]
  intro q hq
  simp only [intervalHours, Option.some.injEq] at hq
  rw [← hq]
  unfold duration
  exact sub_le_sub (min_le_left _ _) (le_max_left _ _)

/-- C2 witness: logging 13:00-17:00 against a regular meeting 14:00-16:00 is
clamped to the meeting's own interval and yields exactly 2 attended hours,
never more than the meeting's 2-hour duration. -/
theorem c2_witness :
    handleTimeBasedLogging [⟨3, 14, 16, .regular⟩] [] 7 0 13 17 =
      (.logged ⟨3, 14, 16, .regular⟩ ⟨7, 3, none, false, some 14, some 16⟩,
       [⟨7, 3, none, false, some 14, some 16⟩]) ∧
    (2 : ℚ) ≤ duration ⟨3, 14, 16, .regular⟩ := by
  have heq :
      handleTimeBasedLogging [⟨3, 14, 16, .regular⟩] [] 7 0 13 17 =
        (.logged ⟨3, 14, 16, .regular⟩ ⟨7, 3, none, false, some 14, some 16⟩,
         [⟨7, 3, none, false, some 14, some 16⟩]) := by
    norm_num [handleTimeBasedLogging, findOverlapping, dayOf, selectBestMeeting,
      selectAux, overlapScore, mkTimeRangeRecord, hasRecordFor, max_def, min_def]
  exact ⟨heq,
    c2_time_range_hours_never_exceed_duration _ _ _ _ _ _ _ _ _ heq (by norm_num)
      2 (by norm_num [intervalHours])⟩

/-! ### C10 -/

/-- C10: a time-range log stores fractional attended hours in `partial_hours`
only when the record is classified as incomplete attendance; on a zero-length
meeting the record is never so classified, so `partial_hours` is `None` and
the aggregation derivation (app.py line 890) falls back to the meeting
duration and credits the record 0 hours, whatever range was logged. -/
theorem c10_zero_length_time_range_credits_zero
    (catalog : List Meeting) (ledger : List AttendanceLog) (u : Nat) (day : ℤ)
    (s e : ℚ) (m : Meeting) (r : AttendanceLog) (L' : List AttendanceLog)
    (h : handleTimeBasedLogging catalog ledger u day s e = (.logged m r, L')) :
    (r.partFlag = false → r.partHours = none) ∧
    (∀ q, r.partHours = some q → r.partFlag = true) ∧
    (m.startTime = m.endTime → r.partFlag = false ∧ attendedHoursOf r m = 0) := by
  obtain ⟨hr, -, -, -, -⟩ := timeLog_logged_inv h
  subst hr
  by_cases hm : m.startTime = m.endTime
  · rw [mkTimeRangeRecord_of_eq hm]
    refine ⟨fun _ => rfl, ?_, fun _ => ⟨rfl, ?_⟩⟩
    · intro q hq
      simp at hq
    · simp [attendedHoursOf, hm]
  · rw [mkTimeRangeRecord_of_ne hm]
    refine ⟨?_, ?_, fun hzero => absurd hzero hm⟩
    · intro hf
      have hc := of_decide_eq_false hf
      simp [hc]
    · intro q hq
      by_cases hc : min m.endTime e - max m.startTime s < m.endTime - m.startTime
      · simp [hc]
      · simp [hc] at hq

/-- C10 witness: logging 14:00-16:00 against the zero-length meeting at 15:00
creates a record holding a 2-hour interval but no fractional hours, and the
aggregation derivation credits it 0 attended hours. -/
theorem c10_witness :
    handleTimeBasedLogging [⟨5, 15, 15, .regular⟩] [] 7 0 14 16 =
      (.logged ⟨5, 15, 15, .regular⟩ ⟨7, 5, none, false, some 14, some 16⟩,
       [⟨7, 5, none, false, some 14, some 16⟩]) ∧
    intervalHours ⟨7, 5, none, false, some 14, some 16⟩ = some 2 ∧
    (⟨7, 5, none, false, some 14, some 16⟩ : AttendanceLog).partFlag = false ∧
    attendedHoursOf ⟨7, 5, none, false, some 14, some 16⟩ ⟨5, 15, 15, .regular⟩ = 0 := by
  have heq :
      handleTimeBasedLogging [⟨5, 15, 15, .regular⟩] [] 7 0 14 16 =
        (.logged ⟨5, 15, 15, .regular⟩ ⟨7, 5, none, false, some 14, some 16⟩,
         [⟨7, 5, none, false, some 14, some 16⟩]) := by
    norm_num [handleTimeBasedLogging, findOverlapping, dayOf, selectBestMeeting,
      selectAux, overlapScore, mkTimeRangeRecord, hasRecordFor, max_def, min_def]
  have hz :=
    (c10_zero_length_time_range_credits_zero _ _ _ _ _ _ _ _ _ heq).2.2 rfl
  exact ⟨heq, by norm_num [intervalHours], hz.1, hz.2⟩

/-! ### C3 -/

/-- The running maximum never decreases along the best-match loop. -/
theorem selectAux_snd_ge_init (s e : ℚ) (ms : List Meeting) (b : Option Meeting)
    (mx : ℚ) : mx ≤ (selectAux s e ms b mx).2 := by
  induction ms generalizing b mx with
  | nil => simp [selectAux]
  | cons m ms ih =>
    simp only [selectAux]
    split
    next hlt => exact le_trans (le_of_lt hlt) (ih _ _)
    next => exact ih _ _

/-- When no remaining candidate beats the running maximum, the loop keeps its
accumulated state. -/
theorem selectAux_of_all_le (s e : ℚ) (ms : List Meeting) (b : Option Meeting)
    (mx : ℚ) (h : ∀ m ∈ ms, overlapScore s e m ≤ mx) :
    selectAux s e ms b mx = (b, mx) := by
  induction ms generalizing b mx with
  | nil => rfl
  | cons m ms ih =>
    simp only [selectAux]
    rw [if_neg (not_lt.mpr (h m (List.mem_cons_self _ _)))]
    exact ih _ _ fun x hx => h x (List.mem_cons_of_mem _ hx)

/-- When some candidate beats the running maximum, the loop returns the first
candidate whose score is maximal: every earlier candidate scores strictly
less, every later one at most as much. -/
theorem selectAux_found (s e : ℚ) (ms : List Meeting) (b : Option Meeting)
    (mx : ℚ) (h : ∃ m ∈ ms, mx < overlapScore s e m) :
    ∃ pre m post, ms = pre ++ m :: post ∧
      (selectAux s e ms b mx).1 = some m ∧
      (∀ x ∈ pre, overlapScore s e x < overlapScore s e m) ∧
      (∀ x ∈ post, overlapScore s e x ≤ overlapScore s e m) ∧
      mx < overlapScore s e m := by
  induction ms generalizing b mx with
  | nil => simp at h
  | cons m0 ms ih =>
    by_cases h0 : mx < overlapScore s e m0
    · by_cases h1 : ∃ x ∈ ms, overlapScore s e m0 < overlapScore s e x
      · obtain ⟨pre, m, post, hms, hfst, hpre, hpost, hlt⟩ :=
          ih (some m0) (overlapScore s e m0) h1
        refine ⟨m0 :: pre, m, post, by simp [hms], ?_, ?_, hpost, lt_trans h0 hlt⟩
        · simp only [selectAux, if_pos h0]
          exact hfst
        · intro x hx
          rcases List.mem_cons.mp hx with rfl | hx'
          · exact hlt
          · exact hpre x hx'
      · push_neg at h1
        refine ⟨[], m0, ms, rfl, ?_, by simp, h1, h0⟩
        simp only [selectAux, if_pos h0]
        rw [selectAux_of_all_le s e ms (some m0) (overlapScore s e m0) h1]
    · obtain ⟨x, hx, hlt⟩ := h
      rcases List.mem_cons.mp hx with rfl | hx'
      · exact absurd hlt h0
      · obtain ⟨pre, m, post, hms, hfst, hpre, hpost, hltm⟩ := ih b mx ⟨x, hx', hlt⟩
        refine ⟨m0 :: pre, m, post, by simp [hms], ?_, ?_, hpost, hltm⟩
        · simp only [selectAux, if_neg h0]
          exact hfst
        · intro y hy
          rcases List.mem_cons.mp hy with rfl | hy'
          · exact lt_of_le_of_lt (not_lt.mp h0) hltm
          · exact hpre y hy'

/-- C3 (amended): when at least one candidate has strictly positive overlap
score, the selection returns the first candidate whose score is maximal; a
zero-length meeting whose instant lies inside the range is scored with the
full range duration.  (When every candidate scores zero, no meeting is
selected at all — see the counterexample.) -/
theorem c3_overlap_selection (s e : ℚ) (cands : List Meeting)
    (h : ∃ m ∈ cands, 0 < overlapScore s e m) :
    (∃ pre m post, cands = pre ++ m :: post ∧
      selectBestMeeting s e cands = some m ∧
      (∀ x ∈ cands, overlapScore s e x ≤ overlapScore s e m) ∧
      (∀ x ∈ pre, overlapScore s e x < overlapScore s e m)) ∧
    (∀ x : Meeting, x.startTime = x.endTime → s ≤ x.startTime → x.startTime ≤ e →
      overlapScore s e x = e - s) := by
  constructor
  · obtain ⟨pre, m, post, hms, hfst, hpre, hpost, -⟩ :=
      selectAux_found s e cands none 0 h
    refine ⟨pre, m, post, hms, hfst, ?_, hpre⟩
    intro x hx
    rw [hms] at hx
    rcases List.mem_append.mp hx with hx' | hx'
    · exact le_of_lt (hpre x hx')
    · rcases List.mem_cons.mp hx' with rfl | hx''
      · exact le_refl _
      · exact hpost x hx''
  · intro x h1 h2 h3
    unfold overlapScore
    rw [if_pos ⟨h1, h2, h3⟩]

/-- C3 counterexample: a candidate meeting 14:00-15:00 returned by the overlap
search for the logged range 15:00-16:00 (the closed-interval filter admits a
boundary touch) has overlap score 0, so the loop selects no meeting at all and
the log fails instead of attaching a record to the maximizing candidate. -/
theorem c3_counterexample :
    findOverlapping [⟨1, 14, 15, .regular⟩] 0 15 16 = [⟨1, 14, 15, .regular⟩] ∧
    handleTimeBasedLogging [⟨1, 14, 15, .regular⟩] [] 7 0 15 16 =
      (.noSuitableMeeting, []) := by
  norm_num [findOverlapping, dayOf, handleTimeBasedLogging, selectBestMeeting,
    selectAux, overlapScore, min_def, max_def]

/-- C3 witness: candidates with overlaps 1 and 3/2 for the range 14:00-16:00 —
the selection is deterministic and the record attaches to the 3/2-overlap
meeting. -/
theorem c3_witness :
    (∃ m ∈ [(⟨1, 14, 15, .regular⟩ : Meeting), ⟨2, 14, 31/2, .regular⟩],
      0 < overlapScore 14 16 m) ∧
    (∃ pre m post,
      [(⟨1, 14, 15, .regular⟩ : Meeting), ⟨2, 14, 31/2, .regular⟩] =
        pre ++ m :: post ∧
      selectBestMeeting 14 16 [(⟨1, 14, 15, .regular⟩ : Meeting), ⟨2, 14, 31/2, .regular⟩] =
        some m ∧
      (∀ x ∈ [(⟨1, 14, 15, .regular⟩ : Meeting), ⟨2, 14, 31/2, .regular⟩],
        overlapScore 14 16 x ≤ overlapScore 14 16 m) ∧
      (∀ x ∈ pre, overlapScore 14 16 x < overlapScore 14 16 m)) ∧
    overlapScore 14 16 ⟨1, 14, 15, .regular⟩ = 1 ∧
    overlapScore 14 16 ⟨2, 14, 31/2, .regular⟩ = 3/2 ∧
    selectBestMeeting 14 16 [⟨1, 14, 15, .regular⟩, ⟨2, 14, 31/2, .regular⟩] =
      some ⟨2, 14, 31/2, .regular⟩ ∧
    handleTimeBasedLogging [⟨1, 14, 15, .regular⟩, ⟨2, 14, 31/2, .regular⟩] [] 7 0 14 16 =
      (.logged ⟨2, 14, 31/2, .regular⟩ ⟨7, 2, none, false, some 14, some (31/2)⟩,
       [⟨7, 2, none, false, some 14, some (31/2)⟩]) := by
  have h0 : ∃ m ∈ [(⟨1, 14, 15, .regular⟩ : Meeting), ⟨2, 14, 31/2, .regular⟩],
      0 < overlapScore 14 16 m :=
    ⟨⟨1, 14, 15, .regular⟩, by simp, by norm_num [overlapScore, min_def, max_def]⟩
  refine ⟨h0, (c3_overlap_selection 14 16 _ h0).1, ?_, ?_, ?_, ?_⟩
  · norm_num [overlapScore, min_def, max_def]
  · norm_num [overlapScore, min_def, max_def]
  · norm_num [selectBestMeeting, selectAux, overlapScore, min_def, max_def]
  · norm_num [handleTimeBasedLogging, findOverlapping, dayOf, selectBestMeeting,
      selectAux, overlapScore, mkTimeRangeRecord, hasRecordFor, max_def, min_def]
    exact List.cons_ne_nil _ _

/-! ### C4 -/

/-- The `userId` of a time-range record is the logging user. -/
theorem mkTimeRangeRecord_userId (u : Nat) (m : Meeting) (s e : ℚ) :
    (mkTimeRangeRecord u m s e).userId = u := rfl

/-- The `meetingHourId` of a time-range record is the matched meeting's id. -/
theorem mkTimeRangeRecord_meetingHourId (u : Nat) (m : Meeting) (s e : ℚ) :
    (mkTimeRangeRecord u m s e).meetingHourId = m.id := rfl

/-- Appending a record whose (user, meeting) pair is absent preserves the
at-most-one-record-per-pair invariant. -/
theorem uniquePairs_append_single {ledger : List AttendanceLog} {r : AttendanceLog}
    (hU : uniquePairs ledger)
    (hnew : ¬hasRecordFor ledger r.userId r.meetingHourId) :
    uniquePairs (ledger ++ [r]) := by
  unfold uniquePairs at hU ⊢
  rw [List.pairwise_append]
  refine ⟨hU, List.pairwise_singleton _ _, ?_⟩
  intro a ha b hb
  simp only [List.mem_singleton] at hb
  subst hb
  rintro ⟨hau, ham⟩
  exact hnew ⟨a, ha, hau, ham⟩

/-- The ledger after a time-range logging call is either unchanged or extends
the old ledger by one record for a pair that was absent. -/
theorem timeLog_ledger_shape (catalog : List Meeting) (ledger : List AttendanceLog)
    (u : Nat) (day : ℤ) (s e : ℚ) :
    (handleTimeBasedLogging catalog ledger u day s e).2 = ledger ∨
    ∃ m, selectBestMeeting s e (findOverlapping catalog day s e) = some m ∧
      ¬hasRecordFor ledger u m.id ∧
      (handleTimeBasedLogging catalog ledger u day s e).2 =
        ledger ++ [mkTimeRangeRecord u m s e] := by
  unfold handleTimeBasedLogging
  split
  · exact Or.inl rfl
  split
  · exact Or.inl rfl
  split
  · exact Or.inl rfl
  next best hsel =>
    split
    next hdup => exact Or.inl rfl
    next hdup => exact Or.inr ⟨best, hsel, hdup, rfl⟩

/-- C4: both logging entry points keep at most one record per (user, meeting)
pair, and a second call for a pair already in the ledger — by identifier, or
by a time range resolving to that meeting — fails with the already-logged
error and leaves the ledger unchanged. -/
theorem c4_single_record_per_pair (catalog : List Meeting)
    (ledger : List AttendanceLog) (u mid : Nat) (day : ℤ) (s e : ℚ) :
    (uniquePairs ledger →
      uniquePairs (logByIdentifier catalog ledger u mid).2 ∧
      uniquePairs (handleTimeBasedLogging catalog ledger u day s e).2) ∧
    (∀ m, lookupMeeting catalog mid = some m → hasRecordFor ledger u mid →
      logByIdentifier catalog ledger u mid = (.alreadyLogged, ledger)) ∧
    (∀ m, ¬e ≤ s →
      selectBestMeeting s e (findOverlapping catalog day s e) = some m →
      hasRecordFor ledger u m.id →
      handleTimeBasedLogging catalog ledger u day s e = (.alreadyLogged m, ledger)) := by
  refine ⟨fun hU => ⟨?_, ?_⟩, ?_, ?_⟩
  · cases hm : lookupMeeting catalog mid with
    | none => simpa [logByIdentifier, hm] using hU
    | some m =>
      simp only [logByIdentifier, hm]
      split
      next hdup => exact hU
      next hdup =>
        exact uniquePairs_append_single hU hdup
  · rcases timeLog_ledger_shape catalog ledger u day s e with hsh | ⟨m, -, hdup, hsh⟩
    · rw [hsh]; exact hU
    · rw [hsh]
      exact uniquePairs_append_single hU
        (by rwa [mkTimeRangeRecord_userId, mkTimeRangeRecord_meetingHourId])
  · intro m hm hdup
    simp only [logByIdentifier, hm]
    rw [if_pos hdup]
  · intro m hse hsel hdup
    unfold handleTimeBasedLogging
    rw [if_neg hse]
    have hne : ¬findOverlapping catalog day s e = [] := by
      intro h0
      rw [h0] at hsel
      simp [selectBestMeeting, selectAux] at hsel
    rw [if_neg hne, hsel]
    dsimp only
    rw [if_pos hdup]

/-- C4 witness: a second log for the (user 7, meeting 1) pair, by identifier
and by a time range resolving to meeting 1, fails and keeps the ledger. -/
theorem c4_witness :
    uniquePairs [⟨7, 1, none, false, some 14, some 16⟩] ∧
    logByIdentifier [⟨1, 14, 16, .regular⟩] [⟨7, 1, none, false, some 14, some 16⟩] 7 1 =
      (.alreadyLogged, [⟨7, 1, none, false, some 14, some 16⟩]) ∧
    handleTimeBasedLogging [⟨1, 14, 16, .regular⟩]
        [⟨7, 1, none, false, some 14, some 16⟩] 7 0 14 16 =
      (.alreadyLogged ⟨1, 14, 16, .regular⟩, [⟨7, 1, none, false, some 14, some 16⟩]) ∧
    uniquePairs
      (logByIdentifier [⟨1, 14, 16, .regular⟩]
        [⟨7, 1, none, false, some 14, some 16⟩] 7 1).2 := by
  have hU : uniquePairs [⟨7, 1, none, false, some 14, some 16⟩] := by
    unfold uniquePairs
    exact List.pairwise_singleton _ _
  have hdup : hasRecordFor [⟨7, 1, none, false, some 14, some 16⟩] 7 1 :=
    ⟨_, List.mem_singleton_self _, rfl, rfl⟩
  have hsel : selectBestMeeting 14 16 (findOverlapping [⟨1, 14, 16, .regular⟩] 0 14 16) =
      some ⟨1, 14, 16, .regular⟩ := by
    norm_num [findOverlapping, dayOf, selectBestMeeting, selectAux, overlapScore,
      min_def, max_def]
  have hc := c4_single_record_per_pair [⟨1, 14, 16, .regular⟩]
    [⟨7, 1, none, false, some 14, some 16⟩] 7 1 0 14 16
  exact ⟨hU, hc.2.1 ⟨1, 14, 16, .regular⟩ (by norm_num [lookupMeeting]) hdup,
    hc.2.2 ⟨1, 14, 16, .regular⟩ (by norm_num) hsel hdup, (hc.1 hU).1⟩

/-! ### C7 -/

/-- C7: the period aggregation never divides by zero — whenever the effective
regular total (total regular hours minus excused regular hours) is at most 0,
the regular attendance percentage is 0. -/
theorem c7_no_division_when_effective_nonpositive (catalog : List Meeting)
    (ledger : List AttendanceLog) (excuses : List Excuse)
    (userId periodId : Nat) (ps pe : ℚ)
    (h : (getUserAttendanceData catalog ledger excuses userId periodId ps pe).effectiveRegularTotalHours ≤ 0) :
    (getUserAttendanceData catalog ledger excuses userId periodId ps pe).regularAttendancePct = 0 := by
  unfold getUserAttendanceData at h ⊢
  dsimp only at h ⊢
  rw [if_neg (not_lt.mpr h)]

/-- C7 witness: one 2-hour regular meeting, fully excused — the effective
regular total is 0 and the percentage is 0, with no division performed. -/
theorem c7_witness :
    (getUserAttendanceData [⟨1, 15, 17, .regular⟩] []
      [⟨7, 1, 1, "trip", 2, none⟩] 7 1 0 24).effectiveRegularTotalHours ≤ 0 ∧
    (getUserAttendanceData [⟨1, 15, 17, .regular⟩] []
      [⟨7, 1, 1, "trip", 2, none⟩] 7 1 0 24).regularAttendancePct = 0 := by
  have he : (getUserAttendanceData [⟨1, 15, 17, .regular⟩] []
      [⟨7, 1, 1, "trip", 2, none⟩] 7 1 0 24).effectiveRegularTotalHours = 0 := by
    norm_num [getUserAttendanceData, filterP, logsWithMeetings, excusesWithMeetings,
      lookupMeeting, duration, attendedHoursOf]
  exact ⟨le_of_eq he,
    c7_no_division_when_effective_nonpositive _ _ _ _ _ _ _ (le_of_eq he)⟩

/-! ### C8 -/

/-- C8 counterexample: a time-range log on the zero-length meeting at 15:00
stores the explicit interval 14:30-15:30 (duration 1) and no fractional
hours; the spec's derivation yields 1 hour, but the aggregation credits the
record 0 attended hours — the explicit interval is not consulted. -/
theorem c8_counterexample :
    handleTimeBasedLogging [⟨1, 15, 15, .regular⟩] [] 7 0 (29/2) (31/2) =
      (.logged ⟨1, 15, 15, .regular⟩ ⟨7, 1, none, false, some (29/2), some (31/2)⟩,
       [⟨7, 1, none, false, some (29/2), some (31/2)⟩]) ∧
    specDerivedHours ⟨7, 1, none, false, some (29/2), some (31/2)⟩
      ⟨1, 15, 15, .regular⟩ = 1 ∧
    intervalHours ⟨7, 1, none, false, some (29/2), some (31/2)⟩ = some 1 ∧
    (getUserAttendanceData [⟨1, 15, 15, .regular⟩]
      [⟨7, 1, none, false, some (29/2), some (31/2)⟩] [] 7 1 0 24).attendedRegularHours
      = 0 := by
  refine ⟨?_, ?_, ?_, ?_⟩
  · norm_num [handleTimeBasedLogging, findOverlapping, dayOf, selectBestMeeting,
      selectAux, overlapScore, mkTimeRangeRecord, hasRecordFor, max_def, min_def]
  · norm_num [specDerivedHours]
  · norm_num [intervalHours]
  · norm_num [getUserAttendanceData, filterP, logsWithMeetings, excusesWithMeetings,
      lookupMeeting, attendedHoursOf, duration]

/-- C8 (amended): the derived attended-hours used by aggregation equal the
stored fractional `attendedHours` when present and otherwise the full meeting
duration; the explicit attended interval is never consulted, and the
meeting-detail view derives identically. -/
theorem c8_aggregation_derivation (l : AttendanceLog) (m : Meeting) :
    (∀ q, l.partHours = some q → attendedHoursOf l m = q) ∧
    (l.partHours = none → attendedHoursOf l m = duration m) ∧
    (∀ os oe, attendedHoursOf { l with attendanceStart := os, attendanceEnd := oe } m =
      attendedHoursOf l m) ∧
    detailHoursAttended l m = attendedHoursOf l m := by
  refine ⟨?_, ?_, fun os oe => rfl, rfl⟩
  · intro q hq
    simp [attendedHoursOf, hq]
  · intro hq
    simp [attendedHoursOf, hq, duration]

/-- C8 witness: the derivation rule applied to a record carrying fractional
hours 3/2 and to a record carrying none. -/
theorem c8_witness :
    attendedHoursOf ⟨7, 1, some (3/2), true, none, none⟩ ⟨1, 14, 16, .regular⟩ = 3/2 ∧
    attendedHoursOf ⟨7, 1, none, false, none, none⟩ ⟨1, 14, 16, .regular⟩ =
      duration ⟨1, 14, 16, .regular⟩ := by
  have h1 := (c8_aggregation_derivation ⟨7, 1, some (3/2), true, none, none⟩
    ⟨1, 14, 16, .regular⟩).1 (3/2) rfl
  have h2 := (c8_aggregation_derivation ⟨7, 1, none, false, none, none⟩
    ⟨1, 14, 16, .regular⟩).2.1 rfl
  exact ⟨h1, h2⟩

/-! ### C6 -/

/-- C6: approval is guarded exactly as claimed — a non-pending request fails
as already reviewed, an outreach meeting fails as not excusable — but the
success path always fails while reading the `reporting_period_id` attribute
that `MeetingHour` does not define (app.py line 1538), so the review fields
are never persisted and no linked Excuse is ever created. -/
theorem c6_approve_excuse_request (req : ExcuseRequest) (meeting : Meeting)
    (reviewerId : Nat) (now : ℚ) (notes : String) (excuses : List Excuse) :
    (req.status ≠ .pending →
      approveExcuseRequest req meeting reviewerId now notes excuses =
        .alreadyProcessed) ∧
    (req.status = .pending → meeting.meetingType = .outreach →
      approveExcuseRequest req meeting reviewerId now notes excuses =
        .outreachNotExcusable) ∧
    (req.status = .pending → meeting.meetingType = .regular →
      approveExcuseRequest req meeting reviewerId now notes excuses =
        .attributeFailure) ∧
    (∀ req' exs', approveExcuseRequest req meeting reviewerId now notes excuses ≠
      .approvedOk req' exs') := by
  refine ⟨?_, ?_, ?_, ?_⟩
  · intro h
    unfold approveExcuseRequest
    rw [if_pos h]
  · intro h1 h2
    unfold approveExcuseRequest
    rw [if_neg (not_not_intro h1), if_pos h2]
  · intro h1 h2
    unfold approveExcuseRequest
    rw [if_neg (not_not_intro h1), if_neg (by simp [h2])]
    rfl
  · intro req' exs'
    by_cases h1 : req.status = .pending
    · by_cases h2 : meeting.meetingType = .outreach
      · unfold approveExcuseRequest
        rw [if_neg (not_not_intro h1), if_pos h2]
        simp
      · unfold approveExcuseRequest
        rw [if_neg (not_not_intro h1), if_neg h2]
        simp [meetingReportingPeriodId]
    · unfold approveExcuseRequest
      rw [if_pos h1]
      simp

/-- C6 witness: a pending request on a regular meeting hits the attribute
failure; a denied request is refused as already processed; a pending request
on an outreach meeting is refused as not excusable. -/
theorem c6_witness :
    approveExcuseRequest ⟨1, 7, 3, "sick", .pending, none, none, none⟩
      ⟨3, 14, 16, .regular⟩ 2 20 "ok" [] = .attributeFailure ∧
    approveExcuseRequest ⟨1, 7, 3, "sick", .denied, none, none, none⟩
      ⟨3, 14, 16, .regular⟩ 2 20 "ok" [] = .alreadyProcessed ∧
    approveExcuseRequest ⟨1, 7, 3, "sick", .pending, none, none, none⟩
      ⟨4, 14, 16, .outreach⟩ 2 20 "ok" [] = .outreachNotExcusable := by
  refine ⟨?_, ?_, ?_⟩
  · exact (c6_approve_excuse_request _ _ _ _ _ _).2.2.1 rfl rfl
  · exact (c6_approve_excuse_request _ _ _ _ _ _).1 (by simp)
  · exact (c6_approve_excuse_request _ _ _ _ _ _).2.1 rfl rfl

/-! ### C5 -/

/-- C5: the direct admin excuse and the request-approval path refuse outreach
meetings, but the bulk importer's `*` cell handling checks only for an
existing excuse and creates one for an outreach meeting without any type
guard, so an Excuse referencing an outreach meeting is reachable. -/
theorem c5_outreach_excuse_gap :
    (handleExcuseDirect 7 ⟨5, 10, 12, .outreach⟩ 1 "sick" 2 []).1 =
      .outreachNotExcusable ∧
    approveExcuseRequest ⟨1, 7, 5, "sick", .pending, none, none, none⟩
      ⟨5, 10, 12, .outreach⟩ 2 20 "no" [] = .outreachNotExcusable ∧
    (processUserCell ⟨[], [], 0, 0, []⟩ 7 ⟨5, 10, 12, .outreach⟩ 2 1 2 .star).excuses =
      [⟨7, 5, 1, "Imported from CSV - excused absence", 2, none⟩] ∧
    (⟨5, 10, 12, .outreach⟩ : Meeting).meetingType = .outreach := by
  refine ⟨?_, ?_, ?_, rfl⟩
  · unfold handleExcuseDirect
    rw [if_pos rfl]
  · unfold approveExcuseRequest
    rw [if_neg (not_not_intro rfl), if_pos rfl]
  · simp [processUserCell, hasExcuseFor]

/-! ### C9 -/

/-- If some element of the list satisfies `p`, the updated list contains the
image under `f` of such an element. -/
theorem updateFirst_exists {α : Type} (p : α → Prop) [DecidablePred p]
    (f : α → α) (l : List α) (h : ∃ a ∈ l, p a) :
    ∃ a, p a ∧ f a ∈ updateFirst p f l := by
  induction l with
  | nil => simp at h
  | cons x xs ih =>
    by_cases hx : p x
    · refine ⟨x, hx, ?_⟩
      simp only [updateFirst, if_pos hx]
      exact List.mem_cons_self _ _
    · obtain ⟨a, ha, hpa⟩ := h
      rcases List.mem_cons.mp ha with rfl | ha'
      · exact absurd hpa hx
      · obtain ⟨a', hpa', hmem⟩ := ih ⟨a, ha', hpa⟩
        refine ⟨a', hpa', ?_⟩
        simp only [updateFirst, if_neg hx]
        exact List.mem_cons_of_mem _ hmem

/-- C9: in the importer's per-user cell parsing with a nonnegative row
meeting length, a parsed value strictly above a non-bonus meeting's length is
rejected with a row diagnostic and changes no table, while on a bonus
(zero-length) row any positive value is accepted and stored as the record's
fractional hours with the record not marked as incomplete. -/
theorem c9_import_cell_validation (acc : ImportAcc) (u : Nat) (m : Meeting)
    (len : ℚ) (pid cb : Nat) (q : ℚ) :
    (0 ≤ len → ¬len = 0 → len < q →
      processUserCell acc u m len pid cb (.num q) =
        { acc with details := acc.details ++ [.hoursExceedLength] }) ∧
    (len = 0 → 0 < q →
      ∃ l ∈ (processUserCell acc u m len pid cb (.num q)).ledger,
        l.userId = u ∧ l.meetingHourId = m.id ∧ l.partHours = some q ∧
        l.partFlag = false) := by
  constructor
  · intro h0 hne hlt
    have hq' : ¬q ≤ 0 := by
      intro hq0
      exact absurd (lt_of_lt_of_le hlt hq0) (not_lt.mpr h0)
    simp only [processUserCell]
    rw [if_neg hq', if_pos ⟨hne, hlt⟩]
  · intro h0 hq
    subst h0
    have hq' : ¬q ≤ 0 := not_le.mpr hq
    by_cases hex : hasRecordFor acc.ledger u m.id
    · have hex' : ∃ a ∈ acc.ledger, a.userId = u ∧ a.meetingHourId = m.id := hex
      obtain ⟨a, hpa, hmem⟩ := updateFirst_exists
        (fun l => l.userId = u ∧ l.meetingHourId = m.id)
        (fun l => { l with partHours := some q, partFlag := false }) acc.ledger hex'
      refine ⟨{ a with partHours := some q, partFlag := false }, ?_, hpa.1, hpa.2,
        rfl, rfl⟩
      simp only [processUserCell]
      rw [if_neg hq']
      rw [if_neg (show ¬(¬True ∧ (0 : ℚ) < q) from fun hh => hh.1 trivial)]
      rw [if_pos hex]
      exact hmem
    · refine ⟨⟨u, m.id, some q, false, none, none⟩, ?_, rfl, rfl, rfl, rfl⟩
      simp only [processUserCell]
      rw [if_neg hq']
      rw [if_neg (show ¬(¬True ∧ (0 : ℚ) < q) from fun hh => hh.1 trivial)]
      rw [if_neg hex]
      refine List.mem_append_right _ ?_
      exact List.mem_singleton.mpr rfl

/-- C9 witness: importing 3.0 hours against a length-0 bonus row creates a
record with 3 stored hours and no incomplete-attendance mark, while 3.0
against a 2-hour row is rejected with a diagnostic and creates nothing. -/
theorem c9_witness :
    processUserCell ⟨[], [], 0, 0, []⟩ 7 ⟨9, 10, 10, .regular⟩ 0 1 2 (.num 3) =
      ⟨[⟨7, 9, some 3, false, none, none⟩], [], 1, 0, [.attendanceCreated]⟩ ∧
    (∃ l ∈ (processUserCell ⟨[], [], 0, 0, []⟩ 7 ⟨9, 10, 10, .regular⟩ 0 1 2
        (.num 3)).ledger,
      l.userId = 7 ∧ l.meetingHourId = 9 ∧ l.partHours = some 3 ∧
      l.partFlag = false) ∧
    processUserCell ⟨[], [], 0, 0, []⟩ 7 ⟨9, 14, 16, .regular⟩ 2 1 2 (.num 3) =
      ⟨[], [], 0, 0, [.hoursExceedLength]⟩ := by
  refine ⟨?_, ?_, ?_⟩
  · norm_num [processUserCell, hasRecordFor]
  · exact (c9_import_cell_validation ⟨[], [], 0, 0, []⟩ 7 ⟨9, 10, 10, .regular⟩
      0 1 2 3).2 rfl (by norm_num)
  · exact (c9_import_cell_validation ⟨[], [], 0, 0, []⟩ 7 ⟨9, 14, 16, .regular⟩
      2 1 2 3).1 (by norm_num) (by norm_num) (by norm_num)

end Attendbot
